import Mathlib

set_option maxHeartbeats 1000000

/-!
Shallow embedding of `src/services/resume_vacancy_matcher.py` from the
career-assistant repository, together with proofs about the matching engine:
text extraction fallback, skill reconciliation, preference-violation
detection and the composite scorer.

Numeric values that Python represents as floats are modelled exactly:
sub-scores computed by purely rational code are `ℚ`, while the cosine
similarity (which takes square roots) and the final weighted score live
in `ℝ`.  Python's `round(x, 3)` (round-half-to-even) is modelled exactly
on the reals.  The two optional network capabilities (structured LLM
extraction and GigaChat embeddings) are modelled as oracle parameters
returning `Option`; `none` stands for "library missing, token missing,
or the call raised", which is exactly the condition under which the
Python code takes its fallback branch.
-/

namespace CareerAssistant

/-! ### Character classes used by the Python regular expressions -/

/-- Latin letters, the class `[A-Za-z]` of `_SKILL_RE`. -/
def isLatinLetter (c : Char) : Bool :=
  ('A' ≤ c && c ≤ 'Z') || ('a' ≤ c && c ≤ 'z')

/-- ASCII digits `[0-9]`. -/
def isAsciiDigit (c : Char) : Bool :=
  '0' ≤ c && c ≤ '9'

/-- The continuation class `[A-Za-z0-9+\-#.]` of `_SKILL_RE`. -/
def isSkillChar (c : Char) : Bool :=
  isLatinLetter c || isAsciiDigit c || c = '+' || c = '-' || c = '#' || c = '.'

/-- Cyrillic letters (the alphabet this repository's texts use besides Latin). -/
def isCyrillicLetter (c : Char) : Bool :=
  ('а' ≤ c && c ≤ 'я') || ('А' ≤ c && c ≤ 'Я') || c = 'ё' || c = 'Ё'

/-- Word characters for the `\b` boundary of Python's `re` module,
over the Latin/Cyrillic/digit/underscore alphabet the program handles. -/
def isWordChar (c : Char) : Bool :=
  isLatinLetter c || isAsciiDigit c || c = '_' || isCyrillicLetter c

/-- Whitespace for Python's `\s` and `str.split()` / `str.strip()`. -/
def isPySpace (c : Char) : Bool :=
  c = ' ' || c = '\t' || c = '\n' || c = '\r' || c = '\x0b' || c = '\x0c'

/-- Python's `str.lower` on one character, over the Latin and Cyrillic
ranges that occur in this program. -/
def pyLowerChar (c : Char) : Char :=
  if 'A' ≤ c && c ≤ 'Z' then Char.ofNat (c.toNat + 32)
  else if 'А' ≤ c && c ≤ 'Я' then Char.ofNat (c.toNat + 32)
  else if c = 'Ё' then 'ё'
  else c

/-- Python's `str.lower`. -/
def pyLower (s : String) : String :=
  String.mk (s.data.map pyLowerChar)

/-- Python's `str.strip()`: drop whitespace from both ends. -/
def pyStrip (s : String) : String :=
  String.mk (((s.data.dropWhile isPySpace).reverse.dropWhile isPySpace).reverse)

/-! ### The fallback skill extractor `_simple_skill_extract`

`_SKILL_RE = re.compile(r"\b[A-Za-z][A-Za-z0-9+\-#.]{2,}\b")` and
`_simple_skill_extract(text) = list({m.group(0).lower() for m in _SKILL_RE.finditer(text)})`.

The scanner below reproduces `finditer` semantics: left-to-right scan, a
match attempt at a position needs a word boundary, a Latin letter, then a
greedy run of at least two `isSkillChar` characters, backtracking the run
from the right until the closing word boundary holds; a successful match
consumes its text (non-overlapping), a failed attempt advances one
character. -/

/-- Word-character test lifted to the "next character" (end of input is
a non-word position). -/
def wordOpt : Option Char → Bool
  | some c => isWordChar c
  | none => false

/-- The `\b` test between a last matched character and the following one. -/
def boundaryOk (last : Char) (next : Option Char) : Bool :=
  isWordChar last != wordOpt next

/-- Backtracking of the greedy `{2,}` run, working on the reversed run:
return the longest prefix (of the un-reversed run) of length ≥ 2 whose
final character forms a word boundary with the character that follows it. -/
def trimRevRun : List Char → Option Char → Option (List Char)
  | [], _ => none
  | [_], _ => none
  | c :: rest, next =>
    if boundaryOk c next then some (c :: rest) else trimRevRun rest (some c)

/-- Backtracking of the greedy run, in reading order. -/
def trimRun (run : List Char) (next : Option Char) : Option (List Char) :=
  (trimRevRun run.reverse next).map List.reverse

/-- One finditer pass of `_SKILL_RE`.  `prevWord` records whether the
character just before the current position is a word character (for the
opening `\b`); the fuel is an upper bound on the number of scan steps. -/
def scanSkillTokens : Nat → Bool → List Char → List (List Char)
  | 0, _, _ => []
  | _ + 1, _, [] => []
  | fuel + 1, prevWord, c :: rest =>
    if !prevWord && isLatinLetter c then
      let run := rest.takeWhile isSkillChar
      let rest2 := rest.dropWhile isSkillChar
      match trimRun run rest2.head? with
      | some p =>
          (c :: p) ::
            scanSkillTokens fuel (isWordChar (p.getLastD c)) (run.drop p.length ++ rest2)
      | none => scanSkillTokens fuel (isWordChar c) rest
    else
      scanSkillTokens fuel (isWordChar c) rest

/-- Embedding of `_simple_skill_extract`: collect the matches, lowercase
them, deduplicate (Python builds a set). -/
def simple_skill_extract (text : String) : List String :=
  ((scanSkillTokens (text.data.length + 1) false text.data).map
    (fun t => String.mk (t.map pyLowerChar))).dedup

/-! ### Data model

The JSON dictionaries produced by `parse_resume` / `parse_vacancy` and
consumed by `match_resume_to_vacancy`.  Fields the Python code reads via
`.get(key)` with a `None`-like default are `Option`s; numbers coming out
of JSON are modelled as `ℚ`. -/

structure Resume where
  skills : List String
  experience_years : Option ℚ
  preferred_schedule : Option String
  preferences_raw : String

structure Vacancy where
  skills_required : List String
  experience_level : Option String
  schedule : Option String
  salary : Option ℚ
  raw_text : Option String

/-- Weight table for the four sub-scores. -/
structure Weights where
  skills : ℝ
  experience : ℝ
  schedule : ℝ
  prefs : ℝ

/-- The module-level default `WEIGHTS` dictionary. -/
noncomputable def WEIGHTS : Weights :=
  { skills := 0.60, experience := 0.15, schedule := 0.15, prefs := 0.10 }

/-- `EMBEDDING_DIM = 1024`. -/
def EMBEDDING_DIM : Nat := 1024

/-! ### `_cosine`, `_embed_skills`, `_skill_score`

The GigaChat embedding capability is an oracle `String → Option (List ℝ)`
applied to the space-joined skill list; `none` models "library not
installed, `GIGACHAT_TOKEN` unset, or `embed_query` raised", in which
case `_embed_skills` returns the flat all-ones fallback vector. -/

/-- Oracle type for the embedding capability. -/
abbrev EmbedOracle : Type := String → Option (List ℝ)

/-- Embedding of `_cosine`: cosine similarity with the Python guards
(`0.0` on empty or length-mismatched input, and when a norm is zero). -/
noncomputable def cosine (a b : List ℝ) : ℝ :=
  if a = [] ∨ b = [] ∨ a.length ≠ b.length then 0
  else
    let dot := ((a.zip b).map (fun p => p.1 * p.2)).sum
    let na := Real.sqrt ((a.map (fun x => x * x)).sum)
    let nb := Real.sqrt ((b.map (fun y => y * y)).sum)
    if na ≠ 0 ∧ nb ≠ 0 then dot / (na * nb) else 0

/-- Embedding of `_embed_skills`. -/
noncomputable def embed_skills (emb : EmbedOracle) (skills : List String) : List ℝ :=
  if skills = [] then List.replicate EMBEDDING_DIM 0
  else
    match emb (String.intercalate " " skills) with
    | some v => v
    | none => List.replicate EMBEDDING_DIM 1

/-- Embedding of `_skill_score`: returns `(score, matched, missing)`.
Python's skill sets are modelled as deduplicated lists of lowercased
tokens; `matched` is the intersection and `missing` the set difference. -/
noncomputable def skill_score (emb : EmbedOracle)
    (resume_skills vacancy_skills : List String) : ℝ × List String × List String :=
  if resume_skills = [] ∨ vacancy_skills = [] then (0, [], vacancy_skills)
  else
    let resume_set := (resume_skills.map pyLower).dedup
    let vacancy_set := (vacancy_skills.map pyLower).dedup
    let matched := resume_set.inter vacancy_set
    let literalScore : ℝ :=
      if vacancy_set = [] then 0 else (matched.length : ℝ) / (vacancy_set.length : ℝ)
    let cosineScore :=
      cosine (embed_skills emb resume_set) (embed_skills emb vacancy_set)
    (max literalScore cosineScore, matched, vacancy_set.filter (fun s => !matched.contains s))

/-! ### `_evaluate_prefs`

`_NEGATIVE_TRIGGERS`, the per-trigger regular expression
`rf"{trig}\s+([a-zа-я0-9+\-#._ ]{2,})"` applied with `re.findall`, the
hard-coded frontend rule, and the violation filter. -/

/-- The `_NEGATIVE_TRIGGERS` tuple. -/
def NEGATIVE_TRIGGERS : List String :=
  ["не хочу", "не интересует", "не занимаюсь", "не хотелось бы", "не беру", "не нужен", "без"]

/-- The capture class `[a-zа-я0-9+\-#._ ]` of the trigger pattern. -/
def isPrefsClassChar (c : Char) : Bool :=
  ('a' ≤ c && c ≤ 'z') || ('а' ≤ c && c ≤ 'я') || isAsciiDigit c ||
    c = '+' || c = '-' || c = '#' || c = '.' || c = '_' || c = ' '

/-- One `re.findall(rf"{trig}\s+([a-zа-я0-9+\-#._ ]{2,})", s)` pass:
scan left to right; at a trigger occurrence, consume the greedy
whitespace run and then the greedy capture-class run; a capture shorter
than two characters makes `\s+` give back trailing spaces (which are
also capture-class characters) so the group still reaches length two
when possible.  A successful match resumes after the captured run, a
failed attempt advances one character.  (When the group cannot reach
length two the attempt fails; the only inputs where Python's engine
would instead accept an all-whitespace group are ones whose group
splits into no token of length ≥ 3, so the keyword set is unaffected.) -/
def scanTrigGroups : Nat → List Char → List Char → List (List Char)
  | 0, _, _ => []
  | _ + 1, _, [] => []
  | fuel + 1, trig, c :: rest =>
    if trig.isPrefixOf (c :: rest) then
      let afterT := (c :: rest).drop trig.length
      let ws := afterT.takeWhile isPySpace
      let afterWs := afterT.dropWhile isPySpace
      if ws = [] then scanTrigGroups fuel trig rest
      else
        let run := afterWs.takeWhile isPrefsClassChar
        let afterRun := afterWs.dropWhile isPrefsClassChar
        if 2 ≤ run.length then run :: scanTrigGroups fuel trig afterRun
        else
          let need := 2 - run.length
          if need < ws.length && (ws.drop (ws.length - need)).all (fun c => c == ' ') then
            (ws.drop (ws.length - need) ++ run) :: scanTrigGroups fuel trig afterRun
          else scanTrigGroups fuel trig rest
    else scanTrigGroups fuel trig rest

/-- Python's `str.split()` (split on whitespace runs, no empty parts). -/
def pySplitWs (cs : List Char) : List (List Char) :=
  (cs.splitOnP isPySpace).filter (fun w => !w.isEmpty)

/-- Python's substring test `pat in s` on character lists. -/
def containsSeq (pat : List Char) : List Char → Bool
  | [] => pat.isEmpty
  | c :: rest => pat.isPrefixOf (c :: rest) || containsSeq pat rest

/-- Keywords contributed by one trigger: the `if trig in lowered_prefs`
guard, the findall pass, `match.replace(",", " ").split()` and the
length-≥-3 filter. -/
def trigKeywords (lowered : List Char) (trig : String) : List (List Char) :=
  if containsSeq trig.data lowered then
    ((scanTrigGroups (lowered.length + 1) trig.data lowered).map
      (fun g => g.map (fun c => if c == ',' then ' ' else c))).flatMap
      (fun g => (pySplitWs g).filter (fun t => decide (3 ≤ t.length)))
  else []

/-- The four hard-coded frontend variants (the third spelling contains
U+2011, a non-breaking hyphen, exactly as in the source). -/
def FRONTEND_VARIANTS : List String :=
  ["фронтенд", "frontend", "front‑end", "front_end"]

/-- The full negative-keyword set built by `_evaluate_prefs` from the
lowercased preferences text (a Python set: deduplicated, order
irrelevant — only membership is ever used downstream). -/
def negKeywordsOf (lowered : String) : List String :=
  ((NEGATIVE_TRIGGERS.flatMap (fun trig => trigKeywords lowered.data trig)).map
      (fun t => String.mk t) ++
    (if containsSeq "фронтенд".data lowered.data || containsSeq "frontend".data lowered.data
      then FRONTEND_VARIANTS else [])).dedup

/-- The `{"нет", "none", "no"}` sentinel set. -/
def SENTINELS : List String := ["нет", "none", "no"]

/-- The sentinel guard of `_evaluate_prefs`:
`not prefs_text or prefs_text.strip().lower() in {"нет", "none", "no"}`. -/
def prefsIsSentinel (prefs_text : String) : Bool :=
  prefs_text == "" || SENTINELS.contains (pyLower (pyStrip prefs_text))

/-- Embedding of `_evaluate_prefs`: returns `(score, violations)`. -/
def evaluate_prefs (prefs_text : String) (vacancy : Vacancy) (raw_text : String) :
    ℚ × List String :=
  if prefsIsSentinel prefs_text then (1, [])
  else
    let lowered := pyLower prefs_text
    let negKws := negKeywordsOf lowered
    let skillsLower := (vacancy.skills_required.map pyLower).dedup
    let rawLower := pyLower raw_text
    let violations := negKws.filter
      (fun kw => skillsLower.contains kw || containsSeq kw.data rawLower.data)
    (if violations = [] then 1 else 0, violations)

/-! ### Experience and schedule sub-scores

These are inlined in `match_resume_to_vacancy` in the source; they are
factored into helper definitions here, translated line by line. -/

/-- The `mapping` dictionary of experience bands (note the source's upper
bound `100` for `"moreThan6"`). -/
def expBand (lvl : String) : Option (ℚ × ℚ) :=
  if lvl = "noExperience" then some (0, 0)
  else if lvl = "between1And3" then some (1, 3)
  else if lvl = "between3And6" then some (3, 6)
  else if lvl = "moreThan6" then some (6, 100)
  else none

/-- Python truthiness of an optional string (`None` and `""` are falsy). -/
def truthyStr : Option String → Bool
  | some s => s != ""
  | none => false

/-- The experience sub-score: starts at `1.0`, replaced only when the
vacancy's `experience_level` is truthy, the resume's years are known and
the level is a key of the band table. -/
def expScore (resume : Resume) (vacancy : Vacancy) : ℚ :=
  if truthyStr vacancy.experience_level then
    match resume.experience_years, expBand (vacancy.experience_level.getD "") with
    | some years, some (low, high) => if low ≤ years ∧ years ≤ high then 1 else 0
    | _, _ => 1
  else 1

/-- The schedule sub-score: `1.0` unless both sides are truthy and differ. -/
def schedScore (resume : Resume) (vacancy : Vacancy) : ℚ :=
  if truthyStr resume.preferred_schedule && truthyStr vacancy.schedule then
    if resume.preferred_schedule = vacancy.schedule then 1 else 0
  else 1

/-- Python's `prefs_text or ""`. -/
def prefsOrEmpty : Option String → String
  | some s => s
  | none => ""

/-! ### Rounding and the composite score -/

/-- Python's `round` to an integer: round half to even. -/
noncomputable def roundHalfEven (x : ℝ) : ℤ :=
  if x - ⌊x⌋ < 1 / 2 then ⌊x⌋
  else if 1 / 2 < x - ⌊x⌋ then ⌊x⌋ + 1
  else if Even ⌊x⌋ then ⌊x⌋ else ⌊x⌋ + 1

/-- Python's `round(x, 3)`. -/
noncomputable def pyRound3 (x : ℝ) : ℝ :=
  (roundHalfEven (x * 1000) : ℝ) / 1000

/-- The final aggregation of `match_resume_to_vacancy`:
`round(skills*w["skills"] + exp*w["experience"] + sched*w["schedule"] + prefs*w["prefs"], 3)`. -/
noncomputable def compositeScore (w : Weights) (sk ex sc pf : ℝ) : ℝ :=
  pyRound3 (sk * w.skills + ex * w.experience + sc * w.schedule + pf * w.prefs)

/-- The result dictionary of `match_resume_to_vacancy`. -/
structure MatchResult where
  score : ℝ
  skills_score : ℝ
  experience_ok : Bool
  schedule_ok : Bool
  prefs_ok : Bool
  matched_skills : List String
  missing_skills : List String
  pref_violations : List String

/-- Embedding of `match_resume_to_vacancy`. -/
noncomputable def match_resume_to_vacancy (emb : EmbedOracle) (resume : Resume)
    (vacancy : Vacancy) (prefs_text : Option String) (weights : Option Weights) :
    MatchResult :=
  let w := match weights with | some cw => cw | none => WEIGHTS
  let sk := skill_score emb resume.skills vacancy.skills_required
  let exp_score := expScore resume vacancy
  let sched_score := schedScore resume vacancy
  let pf := evaluate_prefs (prefsOrEmpty prefs_text) vacancy (vacancy.raw_text.getD "")
  { score := compositeScore w sk.1 (exp_score : ℝ) (sched_score : ℝ) (pf.1 : ℝ)
    skills_score := pyRound3 sk.1
    experience_ok := decide (exp_score ≠ 0)
    schedule_ok := decide (sched_score ≠ 0)
    prefs_ok := decide (pf.1 ≠ 0)
    matched_skills := sk.2.1
    missing_skills := sk.2.2
    pref_violations := pf.2 }

/-! ### `_llm_extract`, `parse_resume`, `parse_vacancy`

The structured-extraction capability is an oracle applied to the
truncated input `text[:4000]`; `none` models every failure mode of
`_llm_extract` (library or token missing, `invoke` raising, or an empty
`arguments` payload — all of which make `_llm_extract` return `{}`,
which is falsy, so the parse functions build the heuristic fallback). -/

/-- Embedding of `parse_resume`. -/
def parse_resume (extract : String → Option Resume) (text : String) : Resume :=
  match extract (text.take 4000) with
  | some data => data
  | none =>
    { skills := simple_skill_extract text
      experience_years := none
      preferred_schedule := none
      preferences_raw := "" }

/-- Embedding of `parse_vacancy`. -/
def parse_vacancy (extract : String → Option Vacancy) (text : String) : Vacancy :=
  match extract (text.take 4000) with
  | some data => data
  | none =>
    { skills_required := simple_skill_extract text
      experience_level := none
      schedule := none
      salary := none
      raw_text := none }

/-! ### State-passing form of the matcher

To make the frame property (no mutation of the caller's records) a
statement rather than a typing convention, the matcher is also given in
state-passing form: the caller's resume/vacancy records and argument
strings live in an explicit environment, every access the Python code
performs goes through `get`, and the function returns the final
environment alongside the result. -/

structure MatchEnv where
  resume : Resume
  vacancy : Vacancy
  prefs_text : Option String
  weights : Option Weights

/-- The matcher as an explicit state transformer over the caller's data:
each `resume.get(...)` / `vacancy.get(...)` of the source is a read of
the environment, and no operation of the source writes to it. -/
noncomputable def match_resume_to_vacancyST (emb : EmbedOracle) :
    MatchEnv → MatchEnv × MatchResult :=
  fun env =>
    (env, match_resume_to_vacancy emb env.resume env.vacancy env.prefs_text env.weights)

/-! ### Character-level lemmas -/

theorem char_le_iff_toNat (a b : Char) : a ≤ b ↔ a.toNat ≤ b.toNat := by
  rw [Char.le_def]
  exact Iff.rfl

theorem toNat_ofNat_valid {n : Nat} (h : n < 55296) : (Char.ofNat n).toNat = n := by
  have hv : n.isValidChar := Or.inl h
  simp [Char.ofNat, hv, Char.ofNatAux, Char.toNat, UInt32.toNat]

theorem isLatinLetter_iff {c : Char} :
    isLatinLetter c = true ↔ (65 ≤ c.toNat ∧ c.toNat ≤ 90) ∨ (97 ≤ c.toNat ∧ c.toNat ≤ 122) := by
  have h1 : 'A'.toNat = 65 := rfl
  have h2 : 'Z'.toNat = 90 := rfl
  have h3 : 'a'.toNat = 97 := rfl
  have h4 : 'z'.toNat = 122 := rfl
  simp [isLatinLetter, char_le_iff_toNat, h1, h2, h3, h4]

theorem char_eq_iff_toNat (c d : Char) : c = d ↔ c.toNat = d.toNat := by
  constructor
  · intro h; rw [h]
  · intro h
    exact Char.eq_of_val_eq (UInt32.eq_of_toBitVec_eq (BitVec.eq_of_toNat_eq h))

theorem isAsciiDigit_iff {c : Char} :
    isAsciiDigit c = true ↔ 48 ≤ c.toNat ∧ c.toNat ≤ 57 := by
  have h1 : '0'.toNat = 48 := rfl
  have h2 : '9'.toNat = 57 := rfl
  simp [isAsciiDigit, char_le_iff_toNat, h1, h2]

theorem isSkillChar_iff {c : Char} :
    isSkillChar c = true ↔
      (65 ≤ c.toNat ∧ c.toNat ≤ 90) ∨ (97 ≤ c.toNat ∧ c.toNat ≤ 122) ∨
      (48 ≤ c.toNat ∧ c.toNat ≤ 57) ∨ c.toNat = 43 ∨ c.toNat = 45 ∨
      c.toNat = 35 ∨ c.toNat = 46 := by
  simp [isSkillChar, isLatinLetter_iff, isAsciiDigit_iff, char_eq_iff_toNat]
  tauto

theorem pyLowerChar_eq (c : Char) :
    pyLowerChar c =
      if 65 ≤ c.toNat ∧ c.toNat ≤ 90 then Char.ofNat (c.toNat + 32)
      else if 1040 ≤ c.toNat ∧ c.toNat ≤ 1071 then Char.ofNat (c.toNat + 32)
      else if c.toNat = 1025 then 'ё'
      else c := by
  have h1 : 'А'.toNat = 1040 := rfl
  have h2 : 'Я'.toNat = 1071 := rfl
  have h3 : 'Ё'.toNat = 1025 := rfl
  have h4 : 'A'.toNat = 65 := rfl
  have h5 : 'Z'.toNat = 90 := rfl
  simp [pyLowerChar, char_le_iff_toNat, char_eq_iff_toNat, h1, h2, h3, h4, h5]

theorem pyLowerChar_latin_lower {c : Char} (h : isLatinLetter c = true) :
    97 ≤ (pyLowerChar c).toNat ∧ (pyLowerChar c).toNat ≤ 122 := by
  rw [pyLowerChar_eq]
  rcases isLatinLetter_iff.mp h with h' | h'
  · rw [if_pos h', toNat_ofNat_valid (by omega)]
    omega
  · rw [if_neg (by omega), if_neg (by omega), if_neg (by omega)]
    omega

theorem pyLowerChar_skill {c : Char} (h : isSkillChar c = true) :
    isSkillChar (pyLowerChar c) = true ∧
      ¬(65 ≤ (pyLowerChar c).toNat ∧ (pyLowerChar c).toNat ≤ 90) := by
  have hc := isSkillChar_iff.mp h
  rw [pyLowerChar_eq]
  by_cases hu : 65 ≤ c.toNat ∧ c.toNat ≤ 90
  · rw [if_pos hu]
    have ht := toNat_ofNat_valid (n := c.toNat + 32) (by omega)
    refine ⟨?_, ?_⟩
    · rw [isSkillChar_iff, ht]
      omega
    · rw [ht]
      omega
  · rw [if_neg hu, if_neg (by omega), if_neg (by omega)]
    exact ⟨h, by omega⟩

/-! ### Soundness of the `_SKILL_RE` scanner -/

theorem trimRevRun_sound : ∀ (l : List Char) (next : Option Char) (k : List Char),
    trimRevRun l next = some k → 2 ≤ k.length ∧ ∀ x ∈ k, x ∈ l
  | [], _, k => by simp [trimRevRun]
  | [a], _, k => by simp [trimRevRun]
  | c :: c2 :: r2, next, k => by
    simp only [trimRevRun]
    split
    · intro h
      injection h with h
      subst h
      refine ⟨by simp, fun x hx => hx⟩
    · intro h
      have ih := trimRevRun_sound (c2 :: r2) (some c) k h
      exact ⟨ih.1, fun x hx => List.mem_cons_of_mem _ (ih.2 x hx)⟩

theorem trimRun_sound {run : List Char} {next : Option Char} {p : List Char}
    (h : trimRun run next = some p) : 2 ≤ p.length ∧ ∀ x ∈ p, x ∈ run := by
  unfold trimRun at h
  cases hr : trimRevRun run.reverse next with
  | none => rw [hr] at h; simp at h
  | some k =>
      rw [hr] at h
      have hp : k.reverse = p := by simpa using h
      subst hp
      have hs := trimRevRun_sound _ _ _ hr
      refine ⟨by simpa using hs.1, ?_⟩
      intro x hx
      have := hs.2 x (by simpa using hx)
      simpa using this

theorem scanSkillTokens_shape : ∀ (fuel : Nat) (prev : Bool) (cs : List Char),
    ∀ t ∈ scanSkillTokens fuel prev cs,
      ∃ c p, t = c :: p ∧ isLatinLetter c = true ∧ 2 ≤ p.length ∧
        ∀ x ∈ p, isSkillChar x = true
  | 0, _, _ => by simp [scanSkillTokens]
  | _ + 1, _, [] => by simp [scanSkillTokens]
  | fuel + 1, prev, c :: rest => by
    intro t ht
    simp only [scanSkillTokens] at ht
    by_cases hg : (!prev && isLatinLetter c) = true
    · rw [if_pos hg] at ht
      cases htr : trimRun (rest.takeWhile isSkillChar) (rest.dropWhile isSkillChar).head? with
      | some p =>
          rw [htr] at ht
          rcases List.mem_cons.mp ht with h1 | h2
          · subst h1
            have hs := trimRun_sound htr
            refine ⟨c, p, rfl, ((Bool.and_eq_true _ _).mp hg).2, hs.1, ?_⟩
            intro x hx
            exact List.mem_takeWhile_imp (hs.2 x hx)
          · exact scanSkillTokens_shape fuel _ _ t h2
      | none =>
          rw [htr] at ht
          exact scanSkillTokens_shape fuel _ _ t ht
    · rw [if_neg hg] at ht
      exact scanSkillTokens_shape fuel _ _ t ht

theorem scanSkillTokens_eq_nil : ∀ (fuel : Nat) (prev : Bool) (cs : List Char),
    (∀ c ∈ cs, isLatinLetter c = false) → scanSkillTokens fuel prev cs = []
  | 0, _, _, _ => by simp [scanSkillTokens]
  | _ + 1, _, [], _ => by simp [scanSkillTokens]
  | fuel + 1, prev, c :: rest, h => by
    have hc : isLatinLetter c = false := h c (by simp)
    have hrest : ∀ x ∈ rest, isLatinLetter x = false :=
      fun x hx => h x (List.mem_cons_of_mem _ hx)
    simp only [scanSkillTokens, hc, Bool.and_false, Bool.false_eq_true, if_false]
    exact scanSkillTokens_eq_nil fuel _ rest hrest

/-- C10: for every input text, the heuristic fallback skill extractor
yields only lowercase, deduplicated tokens that begin with a (lowercase)
Latin letter followed by at least two characters from the
Latin-alphanumeric-plus-punctuation class `[A-Za-z0-9+\-#.]` (none of
them an uppercase Latin letter after case-folding); consequently, for
any text containing no Latin-letter-initial words — e.g. purely
Cyrillic text — the fallback skills list is empty. -/
theorem simple_skill_extract_tokens (text : String) :
    (simple_skill_extract text).Nodup ∧
    (∀ tok ∈ simple_skill_extract text, ∃ c p, tok.data = c :: p ∧
      ('a' ≤ c ∧ c ≤ 'z') ∧ 2 ≤ p.length ∧
      ∀ x ∈ p, isSkillChar x = true ∧ ¬('A' ≤ x ∧ x ≤ 'Z')) ∧
    ((∀ c ∈ text.data, isLatinLetter c = false) → simple_skill_extract text = []) := by
  refine ⟨List.nodup_dedup _, ?_, ?_⟩
  · intro tok htok
    have h1 : tok ∈ (scanSkillTokens (text.data.length + 1) false text.data).map
        (fun t => String.mk (t.map pyLowerChar)) := List.mem_dedup.mp htok
    rcases List.mem_map.mp h1 with ⟨t, ht, rfl⟩
    rcases scanSkillTokens_shape _ _ _ t ht with ⟨c, p, rfl, hlat, hlen, hcls⟩
    refine ⟨pyLowerChar c, p.map pyLowerChar, by simp, ⟨?_, ?_⟩, by simpa using hlen, ?_⟩
    · exact (char_le_iff_toNat _ _).mpr ((pyLowerChar_latin_lower hlat).1)
    · exact (char_le_iff_toNat _ _).mpr ((pyLowerChar_latin_lower hlat).2)
    · intro x hx
      rcases List.mem_map.mp hx with ⟨y, hy, rfl⟩
      have hs := pyLowerChar_skill (hcls y hy)
      refine ⟨hs.1, ?_⟩
      intro hcontr
      exact hs.2 ⟨(char_le_iff_toNat _ _).mp hcontr.1, (char_le_iff_toNat _ _).mp hcontr.2⟩
  · intro h
    unfold simple_skill_extract
    rw [scanSkillTokens_eq_nil _ _ _ h]
    rfl

/-- C10 witness: the theorem applied to the purely Cyrillic text
`"привет мир"`, whose heuristic skill list is empty. -/
theorem simple_skill_extract_tokens_witness :
    simple_skill_extract "привет мир" = [] :=
  (simple_skill_extract_tokens "привет мир").2.2 (by decide)

/-- C6: whenever the resume's or the vacancy's skill list is empty, the
skill reconciler returns score `0.0`, an empty matched list and a
missing list equal to the vacancy's skill list unchanged (so
`skill_score(A, ∅) = (0, [], [])` and `skill_score(∅, B) = (0, [], B)`),
for every embedding oracle. -/
theorem skill_score_empty (emb : EmbedOracle) (rs vs : List String)
    (h : rs = [] ∨ vs = []) :
    skill_score emb rs vs = (0, [], vs) := by
  unfold skill_score
  rw [if_pos h]

/-- C6 witness: both empty-side special cases at concrete inputs, via
the theorem. -/
theorem skill_score_empty_witness :
    skill_score (fun _ => none) ["python"] [] = (0, [], []) ∧
    skill_score (fun _ => none) [] ["java"] = (0, [], ["java"]) :=
  ⟨skill_score_empty _ _ _ (Or.inr rfl), skill_score_empty _ _ _ (Or.inl rfl)⟩

/-- C9: a vacancy whose `experience_level` is a non-empty string outside
the four recognized band codes gets experience sub-score `1.0` no matter
what the resume's `experience_years` is: the lenient default silently
applies to unrecognized bands. -/
theorem expScore_unrecognized (resume : Resume) (vacancy : Vacancy) (lvl : String)
    (hlvl : vacancy.experience_level = some lvl) (hne : lvl ≠ "")
    (hunrec : lvl ∉ ["noExperience", "between1And3", "between3And6", "moreThan6"]) :
    expScore resume vacancy = 1 := by
  simp only [List.mem_cons, List.mem_singleton, not_or] at hunrec
  have hband : expBand lvl = none := by
    simp [expBand, hunrec.1, hunrec.2.1, hunrec.2.2.1, hunrec.2.2.2]
  unfold expScore
  rw [hlvl]
  rw [if_pos (by simp [truthyStr, hne])]
  simp only [Option.getD_some, hband]
  cases resume.experience_years <;> rfl

/-- C9 witness: an unrecognized band code `"senior"` with known years. -/
theorem expScore_unrecognized_witness :
    expScore ⟨[], some 2, none, ""⟩ ⟨[], some "senior", none, none, none⟩ = 1 :=
  expScore_unrecognized _ _ "senior" rfl (by decide) (by decide)

/-- C3: when the extraction capability is unavailable or fails (oracle
`none`, covering the missing-library, missing-token, raised-exception
and empty-arguments cases, all of which make `_llm_extract` return a
falsy value), `parse_resume` and `parse_vacancy` return — without any
exception, since they are total functions — exactly the heuristic
fallback structure: skills from the token-pattern heuristic, every other
field `None` or the empty string. -/
theorem parse_fallback (text : String) :
    parse_resume (fun _ => none) text =
      { skills := simple_skill_extract text, experience_years := none,
        preferred_schedule := none, preferences_raw := "" } ∧
    parse_vacancy (fun _ => none) text =
      { skills_required := simple_skill_extract text, experience_level := none,
        schedule := none, salary := none, raw_text := none } :=
  ⟨rfl, rfl⟩

/-- C2 counterexample: the claim says any resume with
`experience_years ≥ 6` scores `1.0` against the `"moreThan6"` band, but
the code's band table caps that band at `100` years: at
`experience_years = 101` (which is `≥ 6`) the code scores `0.0`. -/
theorem expScore_moreThan6_at_101 :
    (6:ℚ) ≤ 101 ∧
    expScore ⟨[], some 101, none, ""⟩ ⟨[], some "moreThan6", none, none, none⟩ = 0 := by
  constructor
  · norm_num
  · simp [expScore, truthyStr, expBand]
    norm_num

/-- C2 (amended): for a vacancy with a recognized band code and a resume
with known non-negative years, the experience sub-score is `1.0` iff the
years fall inclusively inside the band's range per the code's table
`noExperience → [0,0]`, `between1And3 → [1,3]`, `between3And6 → [3,6]`,
`moreThan6 → [6,100]` (not `[6,∞)`), and `0.0` otherwise; in particular
against `"moreThan6"` the score is `1.0` iff `6 ≤ years ≤ 100`, so
`experience_years = 2` scores `0.0`. -/
theorem expScore_band (resume : Resume) (vacancy : Vacancy) (lvl : String)
    (years low high : ℚ)
    (hlvl : vacancy.experience_level = some lvl)
    (hyears : resume.experience_years = some years) (_hnn : 0 ≤ years)
    (hband : expBand lvl = some (low, high)) :
    expScore resume vacancy = (if low ≤ years ∧ years ≤ high then 1 else 0) ∧
    (lvl = "moreThan6" → (expScore resume vacancy = 1 ↔ 6 ≤ years ∧ years ≤ 100)) := by
  have hne : lvl ≠ "" := by
    intro hempty
    rw [hempty] at hband
    simp [expBand] at hband
  have hmain : expScore resume vacancy = (if low ≤ years ∧ years ≤ high then 1 else 0) := by
    unfold expScore
    rw [hlvl]
    rw [if_pos (by simp [truthyStr, hne])]
    simp only [Option.getD_some, hyears, hband]
  refine ⟨hmain, ?_⟩
  intro hm6
  rw [hm6] at hband
  have hlow : low = 6 ∧ high = 100 := by
    have : (some ((6:ℚ), (100:ℚ))) = some (low, high) := by
      rw [← hband]
      rfl
    injection this with hpair
    exact ⟨congrArg Prod.fst hpair.symm, congrArg Prod.snd hpair.symm⟩
  rw [hmain, hlow.1, hlow.2]
  by_cases hin : (6:ℚ) ≤ years ∧ years ≤ 100
  · rw [if_pos hin]
    simp [hin]
  · rw [if_neg hin]
    simp [hin]

/-- C2 (amended) witness: the scenario from the spec — band
`"moreThan6"`, two years of experience — scores `0.0`. -/
theorem expScore_band_witness :
    expScore ⟨[], some 2, none, ""⟩ ⟨[], some "moreThan6", none, none, none⟩ =
      (if (6:ℚ) ≤ 2 ∧ (2:ℚ) ≤ 100 then 1 else 0) :=
  (expScore_band _ _ "moreThan6" 2 6 100 rfl rfl (by norm_num) rfl).1

/-- C4: with no custom weights, the final score is exactly
`round(skills_score*0.60 + exp_score*0.15 + sched_score*0.15 + prefs_score*0.10, 3)`,
the default weight table being skills 0.60, experience 0.15,
schedule 0.15, preferences 0.10. -/
theorem match_score_default_weights (emb : EmbedOracle) (resume : Resume)
    (vacancy : Vacancy) (prefs_text : Option String) :
    (match_resume_to_vacancy emb resume vacancy prefs_text none).score =
      pyRound3 ((skill_score emb resume.skills vacancy.skills_required).1 * 0.60 +
        (expScore resume vacancy : ℝ) * 0.15 + (schedScore resume vacancy : ℝ) * 0.15 +
        ((evaluate_prefs (prefsOrEmpty prefs_text) vacancy
          (vacancy.raw_text.getD "")).1 : ℝ) * 0.10) :=
  rfl

/-- C8: the matcher in state-passing form returns the caller's
environment (resume record, vacancy record, argument strings) unchanged,
and its result is the pure function of that environment — no mutation of
inputs. -/
theorem match_resume_to_vacancyST_frame (emb : EmbedOracle) (env : MatchEnv) :
    (match_resume_to_vacancyST emb env).1 = env ∧
    (match_resume_to_vacancyST emb env).2 =
      match_resume_to_vacancy emb env.resume env.vacancy env.prefs_text env.weights :=
  ⟨rfl, rfl⟩

/-- C5: for a non-sentinel preferences text, the detector scores `0.0`
exactly when its violations list is non-empty (and `1.0` otherwise), and
a keyword is in the violations list exactly when it is a negative
keyword of the preferences text that occurs in the vacancy's case-folded
required-skills set or as a substring of the case-folded raw text. -/
theorem evaluate_prefs_characterization (prefs_text : String) (vacancy : Vacancy)
    (raw_text : String) (h : prefsIsSentinel prefs_text = false) :
    ((evaluate_prefs prefs_text vacancy raw_text).1 = 0 ↔
      (evaluate_prefs prefs_text vacancy raw_text).2 ≠ []) ∧
    ((evaluate_prefs prefs_text vacancy raw_text).1 = 0 ∨
      (evaluate_prefs prefs_text vacancy raw_text).1 = 1) ∧
    (∀ kw, kw ∈ (evaluate_prefs prefs_text vacancy raw_text).2 ↔
      kw ∈ negKeywordsOf (pyLower prefs_text) ∧
        (kw ∈ (vacancy.skills_required.map pyLower).dedup ∨
          containsSeq kw.data (pyLower raw_text).data = true)) := by
  unfold evaluate_prefs
  rw [if_neg (by simp [h])]
  dsimp only
  refine ⟨?_, ?_, ?_⟩
  · by_cases hv : (negKeywordsOf (pyLower prefs_text)).filter
        (fun kw => ((vacancy.skills_required.map pyLower).dedup.contains kw ||
          containsSeq kw.data (pyLower raw_text).data)) = []
    · rw [hv]
      simp
    · rw [if_neg hv]
      simpa using hv
  · by_cases hv : (negKeywordsOf (pyLower prefs_text)).filter
        (fun kw => ((vacancy.skills_required.map pyLower).dedup.contains kw ||
          containsSeq kw.data (pyLower raw_text).data)) = []
    · rw [hv]
      simp
    · rw [if_neg hv]
      simp
  · intro kw
    simp only [List.mem_filter, Bool.or_eq_true, List.elem_iff, decide_eq_true_eq]

/-- C5 witness: the theorem at the preferences text
`"не хочу фронтенд"` against a vacancy requiring `"Frontend"`. -/
theorem evaluate_prefs_characterization_witness :
    (evaluate_prefs "не хочу фронтенд" ⟨["Frontend"], none, none, none, none⟩ "").1 = 0 ↔
      (evaluate_prefs "не хочу фронтенд" ⟨["Frontend"], none, none, none, none⟩ "").2 ≠ [] :=
  (evaluate_prefs_characterization "не хочу фронтенд"
    ⟨["Frontend"], none, none, none, none⟩ "" (by decide)).1

/-! ### The constant-vector embedding fallback -/

theorem embed_skills_none (l : List String) (h : l ≠ []) :
    embed_skills (fun _ => none) l = List.replicate EMBEDDING_DIM 1 := by
  unfold embed_skills
  rw [if_neg h]

theorem rep_dot_sum : ∀ n : Nat,
    (((List.replicate n (1:ℝ)).zip (List.replicate n (1:ℝ))).map
      (fun p => p.1 * p.2)).sum = n
  | 0 => by simp
  | n + 1 => by
    simp only [List.replicate_succ, List.zip_cons_cons, List.map_cons, List.sum_cons,
      rep_dot_sum n]
    push_cast
    ring

theorem rep_sq_sum (n : Nat) :
    ((List.replicate n (1:ℝ)).map (fun x => x * x)).sum = n := by
  simp [List.map_replicate, List.sum_replicate, nsmul_eq_mul]

theorem cosine_ones :
    cosine (List.replicate 1024 (1:ℝ)) (List.replicate 1024 1) = 1 := by
  have hne : List.replicate 1024 (1:ℝ) ≠ [] := by
    intro hcontra
    have hlen := congrArg List.length hcontra
    rw [List.length_replicate] at hlen
    exact absurd hlen (by norm_num)
  unfold cosine
  rw [if_neg (by push_neg; exact ⟨hne, hne, rfl⟩)]
  dsimp only
  rw [rep_dot_sum, rep_sq_sum]
  have hsqrt : Real.sqrt ((1024:Nat):ℝ) = 32 := by
    rw [show ((1024:Nat):ℝ) = 32 ^ 2 by norm_num]
    exact Real.sqrt_sq (by norm_num)
  rw [hsqrt]
  rw [if_pos ⟨by norm_num, by norm_num⟩]
  norm_num

theorem nodup_subset_length_le {l m : List String} (hn : l.Nodup)
    (hs : ∀ x ∈ l, x ∈ m) : l.length ≤ m.length := by
  calc l.length = l.toFinset.card := (List.toFinset_card_of_nodup hn).symm
    _ ≤ m.toFinset.card :=
        Finset.card_le_card
          (fun x hx => List.mem_toFinset.mpr (hs x (List.mem_toFinset.mp hx)))
    _ ≤ m.length := List.toFinset_card_le m

/-- C1: whenever the embedding capability is unavailable (oracle `none`:
no GigaChatEmbeddings library, no token, or the call raised), the
semantic ratio computed inside the skill reconciler on any two non-empty
skill lists is the cosine of two constant all-ones vectors, namely
`1.0`, and therefore the skill score `max(literal, semantic)` equals
`1.0` regardless of the actual skill overlap. -/
theorem skill_score_no_embedding (rs vs : List String) (h1 : rs ≠ []) (h2 : vs ≠ []) :
    cosine (embed_skills (fun _ => none) ((rs.map pyLower).dedup))
        (embed_skills (fun _ => none) ((vs.map pyLower).dedup)) = 1 ∧
    (skill_score (fun _ => none) rs vs).1 = 1 := by
  have hrs : (rs.map pyLower).dedup ≠ [] := by
    simp [List.dedup_eq_nil, h1]
  have hvs : (vs.map pyLower).dedup ≠ [] := by
    simp [List.dedup_eq_nil, h2]
  have hcos : cosine (embed_skills (fun _ => none) ((rs.map pyLower).dedup))
      (embed_skills (fun _ => none) ((vs.map pyLower).dedup)) = 1 := by
    rw [embed_skills_none _ hrs, embed_skills_none _ hvs]
    exact cosine_ones
  refine ⟨hcos, ?_⟩
  unfold skill_score
  rw [if_neg (by simp [h1, h2])]
  dsimp only
  rw [hcos, if_neg hvs]
  apply max_eq_right
  have hmn : (((rs.map pyLower).dedup).inter ((vs.map pyLower).dedup)).Nodup :=
    (List.nodup_dedup _).inter _
  have hsub : ∀ x ∈ ((rs.map pyLower).dedup).inter ((vs.map pyLower).dedup),
      x ∈ (vs.map pyLower).dedup := by
    intro x hx
    exact (List.mem_inter_iff.mp hx).2
  have hpos : (0:ℝ) < (((vs.map pyLower).dedup).length : ℝ) := by
    exact_mod_cast List.length_pos.mpr hvs
  rw [div_le_one hpos]
  exact_mod_cast nodup_subset_length_le hmn hsub

/-- C1 witness: a resume and vacancy with zero skill overlap still score
`1.0` when no embedding capability is configured. -/
theorem skill_score_no_embedding_witness :
    (skill_score (fun _ => none) ["python"] ["java", "docker"]).1 = 1 :=
  (skill_score_no_embedding ["python"] ["java", "docker"] (by decide) (by decide)).2

/-! ### Monotonicity of the rounded composite score -/

theorem roundHalfEven_le (x : ℝ) : roundHalfEven x ≤ ⌊x⌋ + 1 := by
  unfold roundHalfEven
  split_ifs <;> omega

theorem le_roundHalfEven (x : ℝ) : ⌊x⌋ ≤ roundHalfEven x := by
  unfold roundHalfEven
  split_ifs <;> omega

theorem roundHalfEven_mono {x y : ℝ} (h : x ≤ y) :
    roundHalfEven x ≤ roundHalfEven y := by
  rcases lt_or_eq_of_le (Int.floor_mono h : ⌊x⌋ ≤ ⌊y⌋) with hlt | heq
  · calc roundHalfEven x ≤ ⌊x⌋ + 1 := roundHalfEven_le x
      _ ≤ ⌊y⌋ := by omega
      _ ≤ roundHalfEven y := le_roundHalfEven y
  · unfold roundHalfEven
    rw [← heq]
    have hr : x - (⌊x⌋ : ℝ) ≤ y - (⌊x⌋ : ℝ) := by linarith
    split_ifs <;> first | omega | (exfalso; linarith)

theorem pyRound3_mono {x y : ℝ} (h : x ≤ y) : pyRound3 x ≤ pyRound3 y := by
  unfold pyRound3
  have hmul : x * 1000 ≤ y * 1000 := by linarith
  have hint := roundHalfEven_mono hmul
  have hcast : ((roundHalfEven (x * 1000) : ℤ) : ℝ) ≤ ((roundHalfEven (y * 1000) : ℤ) : ℝ) :=
    Int.cast_le.mpr hint
  linarith

/-- C7: for fixed non-negative weights, the final composite score of the
matcher (the rounded weighted sum computed by `compositeScore`, which is
what `match_resume_to_vacancy` stores in `score`) is monotonically
non-decreasing in every sub-score: raising any one sub-score while the
others do not decrease cannot decrease the final score, rounding
included. -/
theorem compositeScore_mono (w : Weights)
    (hw1 : 0 ≤ w.skills) (hw2 : 0 ≤ w.experience) (hw3 : 0 ≤ w.schedule)
    (hw4 : 0 ≤ w.prefs) (sk1 sk2 ex1 ex2 sc1 sc2 pf1 pf2 : ℝ)
    (h1 : sk1 ≤ sk2) (h2 : ex1 ≤ ex2) (h3 : sc1 ≤ sc2) (h4 : pf1 ≤ pf2) :
    compositeScore w sk1 ex1 sc1 pf1 ≤ compositeScore w sk2 ex2 sc2 pf2 := by
  unfold compositeScore
  apply pyRound3_mono
  have g1 : sk1 * w.skills ≤ sk2 * w.skills := mul_le_mul_of_nonneg_right h1 hw1
  have g2 : ex1 * w.experience ≤ ex2 * w.experience := mul_le_mul_of_nonneg_right h2 hw2
  have g3 : sc1 * w.schedule ≤ sc2 * w.schedule := mul_le_mul_of_nonneg_right h3 hw3
  have g4 : pf1 * w.prefs ≤ pf2 * w.prefs := mul_le_mul_of_nonneg_right h4 hw4
  linarith

/-- C7 witness: raising the skills sub-score from 0 to 1 under the
default weight values cannot lower the rounded score. -/
theorem compositeScore_mono_witness :
    compositeScore ⟨0.60, 0.15, 0.15, 0.10⟩ 0 1 1 1 ≤
      compositeScore ⟨0.60, 0.15, 0.15, 0.10⟩ 1 1 1 1 :=
  compositeScore_mono ⟨0.60, 0.15, 0.15, 0.10⟩ (by norm_num) (by norm_num)
    (by norm_num) (by norm_num) 0 1 1 1 1 1 1 1 (by norm_num) le_rfl le_rfl le_rfl

end CareerAssistant
